import Mathlib

/-!
Shallow embedding of the in-memory voting store of
`src/main.go` (package `main` of Voting_example_go_vanillaJS).

Modelling decisions, in correspondence with the Go source:

* The Go `Database` struct holds four `map`s (`users`, `candidates`,
  `votes`, `tokens`) and two id counters.  Each map is embedded as a
  list of records keyed by the record's own key field (`User.ID`,
  `Candidate.ID`, `Vote.ID`, `Token.Token`); map insertion keeps Go's
  overwrite semantics (`insertByKey`), map deletion is a filter, and
  lookup is `List.find?` on the key.
* Go map *iteration* order (`for ... range`) is unspecified and
  randomised per range by the Go runtime.  Operations that iterate a
  map to build a slice (`GetCandidates`, `GetResults`) therefore take
  the iteration order — a permutation of the key set — as an explicit
  parameter.  Operations that iterate only to test or find a matching
  username (`CreateUser`'s duplicate check, `AuthenticateUser`) use
  `List.any` / `List.find?`: `any` is order-independent, and `find?`
  matters only when two users share a username, which never happens in
  a reachable state.
* `bcrypt.GenerateFromPassword` / `bcrypt.CompareHashAndPassword` are
  external library calls; they are embedded by their contract: hashing
  is modelled as an injective tagging function and comparison succeeds
  exactly on the original password.  (The real hash is salted, but
  only the verification relation is observable to the store.)
* `crypto/rand` and `time.Now()` are external inputs; the generated
  token string and the current time are passed in as parameters.
* Go errors are `fmt.Errorf` strings; they are embedded as the error
  kinds of the specification together with `errMessage`, the exact
  message string the source produces for each kind.
* The `sync.RWMutex` makes every exported operation atomic, so any
  concurrent history of operations is equivalent to a serial one; the
  step relation `Step` below is that serial semantics.
-/

/-- `User` struct of the source: id, username, email, bcrypt password
hash, has-voted flag. -/
structure User where
  id : Nat
  username : String
  email : String
  password : String
  hasVoted : Bool
deriving Repr, DecidableEq

/-- `Candidate` struct of the source: id and display name. -/
structure Candidate where
  id : Nat
  name : String
deriving Repr, DecidableEq

/-- `Vote` struct of the source: id, voter id, candidate id, creation
time. -/
structure Vote where
  id : Nat
  userID : Nat
  candidateID : Nat
  createdAt : Nat
deriving Repr, DecidableEq

/-- `Token` struct of the source: bound user id, token string,
creation time. -/
structure Token where
  userID : Nat
  token : String
  createdAt : Nat
deriving Repr, DecidableEq

/-- The logical error kinds of the specification; `errMessage` ties
each kind to the literal `fmt.Errorf` string the source returns. -/
inductive Err where
  | duplicateUsername
  | invalidCredentials
  | notFound
  | invalidToken
  | userVanished
  | alreadyVoted
  | unknownCandidate
deriving Repr, DecidableEq

deriving instance DecidableEq for Except

/-- The exact error string `src/main.go` produces for each kind.
`userVanished` (ValidateToken, user row gone) and `notFound`
(CastVote, unknown user id) share the message "user not found". -/
def errMessage : Err → String
  | .duplicateUsername => "username already exists"
  | .invalidCredentials => "invalid credentials"
  | .notFound => "user not found"
  | .invalidToken => "invalid token"
  | .userVanished => "user not found"
  | .alreadyVoted => "user has already voted"
  | .unknownCandidate => "candidate not found"

/-- The `Database` struct: the four tables and the two id sequences.
Each list plays the role of the corresponding Go map, keyed by the
record's key field. -/
structure Database where
  users : List User
  candidates : List Candidate
  votes : List Vote
  tokens : List Token
  userIDSeq : Nat
  voteIDSeq : Nat
deriving Repr, DecidableEq

/-- Go map insertion `m[key x] = x`: overwrite the entry with the same
key if present, otherwise add the entry. -/
def insertByKey {α κ : Type} [DecidableEq κ] (key : α → κ) (l : List α) (x : α) : List α :=
  if l.any (fun y => key y == key x) then
    l.map (fun y => if key y == key x then x else y)
  else
    l ++ [x]

/-- Map lookup `db.users[k]`. -/
def lookupUser (db : Database) (k : Nat) : Option User :=
  db.users.find? (fun u => u.id == k)

/-- Map lookup `db.candidates[k]`. -/
def lookupCandidate (db : Database) (k : Nat) : Option Candidate :=
  db.candidates.find? (fun c => c.id == k)

/-- Map lookup `db.tokens[k]`. -/
def lookupToken (db : Database) (k : String) : Option Token :=
  db.tokens.find? (fun t => t.token == k)

/-- `NewDatabase()`: empty tables, zero id sequences, and the three
seeded candidates. -/
def NewDatabase : Database :=
  { users := []
    candidates :=
      [{ id := 1, name := "Alice Johnson" },
       { id := 2, name := "Bob Smith" },
       { id := 3, name := "Charlie Brown" }]
    votes := []
    tokens := []
    userIDSeq := 0
    voteIDSeq := 0 }

/-- Contract of `bcrypt.GenerateFromPassword` as observable by the
store: a one-way hash, embedded as injective tagging.  (The Go call
can fail only for passwords longer than 72 bytes; no claim exercises
that path, so hashing is total here.) -/
def bcryptHash (password : String) : String :=
  "$2a$10$" ++ password

/-- Contract of `bcrypt.CompareHashAndPassword`: verification succeeds
exactly when the candidate password is the hashed one. -/
def bcryptCompare (stored password : String) : Bool :=
  stored == bcryptHash password

/-- `Database.CreateUser`: fail with `duplicateUsername` if any user
has exactly this username (case-sensitive `==` in Go); otherwise hash
the password, advance `userIDSeq`, and insert the new user under its
id. Returns the result together with the post state. -/
def CreateUser (db : Database) (username email password : String) :
    Except Err User × Database :=
  if db.users.any (fun u => u.username == username) then
    (.error .duplicateUsername, db)
  else
    let user : User :=
      { id := db.userIDSeq + 1
        username := username
        email := email
        password := bcryptHash password
        hasVoted := false }
    (.ok user,
     { db with
        userIDSeq := db.userIDSeq + 1
        users := insertByKey User.id db.users user })

/-- `Database.AuthenticateUser`: scan for the first user with this
username; unknown username and failed password comparison both yield
`invalidCredentials`.  Read-only. -/
def AuthenticateUser (db : Database) (username password : String) :
    Except Err User :=
  match db.users.find? (fun u => u.username == username) with
  | some u =>
      if bcryptCompare u.password password then .ok u
      else .error .invalidCredentials
  | none => .error .invalidCredentials

/-- `Database.CreateToken`: store a token record binding `userID` to
the string read from `crypto/rand` (passed in as `tokenStr`), at time
`now`.  The source's only failure is a `rand.Read` failure, an
external-entropy event outside this embedding. -/
def CreateToken (db : Database) (userID : Nat) (tokenStr : String) (now : Nat) :
    Except Err String × Database :=
  (.ok tokenStr,
   { db with
      tokens := insertByKey Token.token db.tokens
        { userID := userID, token := tokenStr, createdAt := now } })

/-- `Database.ValidateToken`: unknown token string fails with
`invalidToken`; a token whose bound user row is gone fails with
`userVanished` (source message "user not found").  Read-only. -/
def ValidateToken (db : Database) (tokenStr : String) : Except Err User :=
  match lookupToken db tokenStr with
  | none => .error .invalidToken
  | some tok =>
      match lookupUser db tok.userID with
      | none => .error .userVanished
      | some u => .ok u

/-- `Database.DeleteToken`: `delete(db.tokens, tokenStr)` then
`return nil` — unconditionally succeeds, removing the entry if it is
there. -/
def DeleteToken (db : Database) (tokenStr : String) :
    Except Err Unit × Database :=
  (.ok (),
   { db with tokens := db.tokens.filter (fun t => !(t.token == tokenStr)) })

/-- `Database.GetCandidates`: builds a slice by ranging over the
`candidates` map.  Go randomises map range order, so the order is an
explicit parameter: a sequence of keys (a permutation of the key set,
see `CandidateRange`).  Read-only. -/
def GetCandidates (db : Database) (order : List Nat) : List Candidate :=
  order.filterMap (fun k => lookupCandidate db k)

/-- The orders a Go `for ... range db.candidates` may produce: each key
exactly once, in any order. -/
def CandidateRange (db : Database) (order : List Nat) : Prop :=
  order.Perm (db.candidates.map Candidate.id)

instance (db : Database) (order : List Nat) : Decidable (CandidateRange db order) :=
  inferInstanceAs (Decidable (order.Perm (db.candidates.map Candidate.id)))

/-- `Database.CastVote`: unknown user id fails `notFound`; a user who
has voted fails `alreadyVoted`; unknown candidate id fails
`unknownCandidate`; otherwise advance `voteIDSeq`, insert the new
vote under its id, and set the user's has-voted flag (a pointer write,
i.e. an update of the stored user record). -/
def CastVote (db : Database) (userID candidateID : Nat) (now : Nat) :
    Except Err Vote × Database :=
  match lookupUser db userID with
  | none => (.error .notFound, db)
  | some user =>
      if user.hasVoted then (.error .alreadyVoted, db)
      else
        match lookupCandidate db candidateID with
        | none => (.error .unknownCandidate, db)
        | some _ =>
            let vote : Vote :=
              { id := db.voteIDSeq + 1
                userID := userID
                candidateID := candidateID
                createdAt := now }
            (.ok vote,
             { db with
                voteIDSeq := db.voteIDSeq + 1
                votes := insertByKey Vote.id db.votes vote
                users := db.users.map
                  (fun u => if u.id == userID then { u with hasVoted := true } else u) })

/-- `Database.GetResults`: builds a slice by ranging over the `votes`
map; as with `GetCandidates` the Go range order is an explicit
parameter.  Read-only. -/
def GetResults (db : Database) (order : List Nat) : List Vote :=
  order.filterMap (fun k => (db.votes.find? (fun v => v.id == k)))

/-- The `RegisterHandler` transport-layer validation: the request is
rejected ("All fields are required") exactly when some field is the
empty string; the core `CreateUser` performs no such check. -/
def registerRejects (username email password : String) : Bool :=
  username == "" || email == "" || password == ""

/-- One serialized core operation.  The global `sync.RWMutex` makes
every exported operation atomic, so any concurrent history is
equivalent to some serial interleaving of these steps.  Read-only
operations (`AuthenticateUser`, `ValidateToken`, `GetCandidates`,
`GetResults`) leave the store unchanged but are listed so that
"any sequence of the core operations" is taken literally. -/
inductive Step : Database → Database → Prop where
  | createUser (db : Database) (username email password : String) :
      Step db (CreateUser db username email password).2
  | authenticate (db : Database) (username password : String) :
      Step db db
  | issueToken (db : Database) (userID : Nat) (tokenStr : String) (now : Nat) :
      Step db (CreateToken db userID tokenStr now).2
  | resolveToken (db : Database) (tokenStr : String) :
      Step db db
  | revokeToken (db : Database) (tokenStr : String) :
      Step db (DeleteToken db tokenStr).2
  | listCandidates (db : Database) (order : List Nat) :
      Step db db
  | castVote (db : Database) (userID candidateID now : Nat) :
      Step db (CastVote db userID candidateID now).2
  | tally (db : Database) (order : List Nat) :
      Step db db

/-- States reachable from the freshly initialised store by any
sequence of core operations. -/
def Reachable (db : Database) : Prop :=
  Relation.ReflTransGen Step NewDatabase db

/-- Number of votes in the ledger whose voter id is `uid`. -/
def voteCount (db : Database) (uid : Nat) : Nat :=
  (db.votes.filter (fun v => v.userID == uid)).length

/-- Whether an operation result is a success. -/
def exceptOk {ε α : Type} : Except ε α → Bool
  | .ok _ => true
  | .error _ => false

/-- The error kind of a failed operation result, if any. -/
def errOf {α : Type} : Except Err α → Option Err
  | .error e => some e
  | .ok _ => none

/-- A serialized batch of `CastVote` calls for one user: each element
of `calls` is a candidate id together with the call's wall-clock time.
This is the serial order the store's mutex imposes on a set of
concurrent calls for that user. -/
def castVotes (db : Database) (uid : Nat) (calls : List (Nat × Nat)) :
    List (Except Err Vote) × Database :=
  match calls with
  | [] => ([], db)
  | c :: rest =>
      let r := CastVote db uid c.1 c.2
      let rr := castVotes r.2 uid rest
      (r.1 :: rr.1, rr.2)

/-- The store invariant maintained by every core operation. -/
structure StoreInv (db : Database) : Prop where
  userIdLe : ∀ u ∈ db.users, u.id ≤ db.userIDSeq
  voteIdLe : ∀ v ∈ db.votes, v.id ≤ db.voteIDSeq
  voterIdLe : ∀ v ∈ db.votes, v.userID ≤ db.userIDSeq
  usernamesDistinct : db.users.Pairwise (fun a b => ¬ a.username = b.username)
  voteCountFlag : ∀ u ∈ db.users, voteCount db u.id = if u.hasVoted then 1 else 0

/-- The store after registering the user "alice". -/
def db1 : Database := (CreateUser NewDatabase "alice" "alice@example.com" "pw123").2

/-- The user record that registration of "alice" produces. -/
def alice1 : User :=
  { id := 1
    username := "alice"
    email := "alice@example.com"
    password := bcryptHash "pw123"
    hasVoted := false }

/-! ### Helper lemmas -/

/-- Go map insertion under a key no existing entry carries is an
append. -/
theorem insertByKey_fresh {α κ : Type} [DecidableEq κ] (key : α → κ) (l : List α) (x : α)
    (h : ∀ y ∈ l, ¬ key y = key x) : insertByKey key l x = l ++ [x] := by
  have hany : l.any (fun y => key y == key x) = false := by
    simp only [List.any_eq_false, beq_iff_eq]
    exact h
  simp [insertByKey, hany]

/-- A `CastVote` by a user whose flag is already set fails and leaves
the store untouched; hence a whole batch of such calls does. -/
theorem castVotes_after_voted (uid : Nat) (u : User) (hv : u.hasVoted = true)
    (calls : List (Nat × Nat)) :
    ∀ db : Database, lookupUser db uid = some u →
      castVotes db uid calls = (calls.map (fun _ => .error .alreadyVoted), db) := by
  induction calls with
  | nil => intro db _; rfl
  | cons c rest ih =>
      intro db hu
      have hcv : CastVote db uid c.1 c.2 = (.error .alreadyVoted, db) := by
        unfold CastVote
        rw [hu]
        simp [hv]
      simp only [castVotes, hcv, ih db hu, List.map_cons]

/-- Splitting a voter-id count over an appended vote. -/
theorem voteCount_votes_append (l : List Vote) (v : Vote) (uid : Nat) :
    ((l ++ [v]).filter (fun w => w.userID == uid)).length =
      (l.filter (fun w => w.userID == uid)).length +
        (if v.userID = uid then 1 else 0) := by
  by_cases h : v.userID = uid <;> simp [List.filter_append, h]

/-- The freshly initialised store satisfies the invariant. -/
theorem storeInv_init : StoreInv NewDatabase := by
  constructor <;> simp [NewDatabase, voteCount]

/-- Every core operation preserves the store invariant. -/
theorem storeInv_step {db db2 : Database} (h : StoreInv db) (hs : Step db db2) :
    StoreInv db2 := by
  cases hs with
  | authenticate username password => exact h
  | resolveToken tokenStr => exact h
  | listCandidates order => exact h
  | tally order => exact h
  | issueToken userID tokenStr now =>
      exact ⟨h.userIdLe, h.voteIdLe, h.voterIdLe, h.usernamesDistinct, h.voteCountFlag⟩
  | revokeToken tokenStr =>
      exact ⟨h.userIdLe, h.voteIdLe, h.voterIdLe, h.usernamesDistinct, h.voteCountFlag⟩
  | createUser username email password =>
      by_cases hdup : db.users.any (fun u => u.username == username) = true
      · have hsame : (CreateUser db username email password).2 = db := by
          simp [CreateUser, hdup]
        rw [hsame]; exact h
      · have hfresh : ∀ y ∈ db.users, ¬ User.id y = User.id
            { id := db.userIDSeq + 1, username := username, email := email,
              password := bcryptHash password, hasVoted := false } := by
          intro y hy
          have := h.userIdLe y hy
          simp only [User.id]
          omega
        have hstate : (CreateUser db username email password).2 =
            { db with
               userIDSeq := db.userIDSeq + 1
               users := db.users ++
                 [{ id := db.userIDSeq + 1, username := username, email := email,
                    password := bcryptHash password, hasVoted := false }] } := by
          simp [CreateUser, hdup, insertByKey_fresh User.id db.users _ hfresh]
        rw [hstate]
        have hnames : ∀ u ∈ db.users, ¬ u.username = username := by
          intro u hu hcontra
          exact hdup (List.any_eq_true.mpr ⟨u, hu, by simp [hcontra]⟩)
        constructor
        · intro u hu
          show u.id ≤ db.userIDSeq + 1
          rcases List.mem_append.mp hu with hl | hr
          · have := h.userIdLe u hl
            omega
          · rcases List.mem_singleton.mp hr with rfl
            simp
        · exact h.voteIdLe
        · intro v hv
          show v.userID ≤ db.userIDSeq + 1
          have := h.voterIdLe v hv
          omega
        · refine List.pairwise_append.mpr ⟨h.usernamesDistinct, List.pairwise_singleton _ _, ?_⟩
          intro a ha b hb
          rcases List.mem_singleton.mp hb with rfl
          simpa using hnames a ha
        · intro u hu
          rcases List.mem_append.mp hu with hl | hr
          · exact h.voteCountFlag u hl
          · rcases List.mem_singleton.mp hr with rfl
            have hempty : db.votes.filter
                (fun w => w.userID == db.userIDSeq + 1) = [] := by
              refine List.filter_eq_nil_iff.mpr ?_
              intro v hv
              have := h.voterIdLe v hv
              simp only [beq_iff_eq]
              omega
            simp [voteCount, hempty]
  | castVote userID candidateID now =>
      cases hu : lookupUser db userID with
      | none =>
          have hsame : (CastVote db userID candidateID now).2 = db := by
            unfold CastVote; rw [hu]
          rw [hsame]; exact h
      | some user =>
          by_cases hv : user.hasVoted = true
          · have hsame : (CastVote db userID candidateID now).2 = db := by
              unfold CastVote; rw [hu]; simp [hv]
            rw [hsame]; exact h
          · cases hc : lookupCandidate db candidateID with
            | none =>
                have hsame : (CastVote db userID candidateID now).2 = db := by
                  unfold CastVote; rw [hu]; simp [hv, hc]
                rw [hsame]; exact h
            | some cand =>
                have humem : user ∈ db.users := List.mem_of_find?_eq_some hu
                have huid : user.id = userID := by
                  have := List.find?_some hu
                  simpa using this
                have hfreshVote : ∀ y ∈ db.votes, ¬ Vote.id y = Vote.id
                    { id := db.voteIDSeq + 1, userID := userID,
                      candidateID := candidateID, createdAt := now } := by
                  intro y hy
                  have := h.voteIdLe y hy
                  simp only [Vote.id]
                  omega
                have hstate : (CastVote db userID candidateID now).2 =
                    { db with
                       voteIDSeq := db.voteIDSeq + 1
                       votes := db.votes ++
                         [{ id := db.voteIDSeq + 1, userID := userID,
                            candidateID := candidateID, createdAt := now }]
                       users := db.users.map
                         (fun w => if w.id == userID then { w with hasVoted := true } else w) } := by
                  unfold CastVote
                  rw [hu]
                  simp [hv, hc, insertByKey_fresh Vote.id db.votes _ hfreshVote]
                rw [hstate]
                have hcount0 : voteCount db userID = 0 := by
                  have := h.voteCountFlag user humem
                  rw [huid] at this
                  simpa [hv] using this
                have hsplit : ∀ x : Nat, voteCount
                    { db with
                       voteIDSeq := db.voteIDSeq + 1
                       votes := db.votes ++
                         [{ id := db.voteIDSeq + 1, userID := userID,
                            candidateID := candidateID, createdAt := now }]
                       users := db.users.map
                         (fun w => if w.id == userID then { w with hasVoted := true } else w) } x
                    = voteCount db x + (if userID = x then 1 else 0) := by
                  intro x
                  show ((db.votes ++
                      [({ id := db.voteIDSeq + 1, userID := userID,
                          candidateID := candidateID, createdAt := now } : Vote)]).filter
                    (fun (w : Vote) => w.userID == x)).length =
                    voteCount db x + (if userID = x then 1 else 0)
                  rw [voteCount_votes_append]
                  rfl
                constructor
                · intro u hu2
                  rcases List.mem_map.mp hu2 with ⟨w, hw, rfl⟩
                  show (if w.id == userID then { w with hasVoted := true } else w).id ≤ db.userIDSeq
                  have hle := h.userIdLe w hw
                  by_cases hwid : w.id = userID <;> simp [hwid] <;> omega
                · intro v hv2
                  show v.id ≤ db.voteIDSeq + 1
                  rcases List.mem_append.mp hv2 with hl | hr
                  · have := h.voteIdLe v hl
                    omega
                  · rcases List.mem_singleton.mp hr with rfl
                    simp
                · intro v hv2
                  show v.userID ≤ db.userIDSeq
                  rcases List.mem_append.mp hv2 with hl | hr
                  · exact h.voterIdLe v hl
                  · rcases List.mem_singleton.mp hr with rfl
                    have := h.userIdLe user humem
                    show userID ≤ db.userIDSeq
                    omega
                · rw [List.pairwise_map]
                  refine h.usernamesDistinct.imp ?_
                  intro a b hab
                  by_cases ha : a.id = userID <;> by_cases hb : b.id = userID <;>
                    simpa [ha, hb] using hab
                · intro u hu2
                  rcases List.mem_map.mp hu2 with ⟨w, hw, rfl⟩
                  by_cases hwid : w.id = userID
                  · have hfw : (if w.id == userID then { w with hasVoted := true } else w)
                        = { w with hasVoted := true } := by simp [hwid]
                    rw [hfw]
                    show voteCount _ w.id = 1
                    rw [hsplit w.id, hwid, hcount0]
                    simp
                  · have hfw : (if w.id == userID then { w with hasVoted := true } else w)
                        = w := by simp [hwid]
                    rw [hfw]
                    show voteCount _ w.id = if w.hasVoted then 1 else 0
                    rw [hsplit w.id, if_neg (fun hh => hwid hh.symm), Nat.add_zero]
                    exact h.voteCountFlag w hw

/-- Every reachable state satisfies the store invariant. -/
theorem reachable_storeInv {db : Database} (h : Reachable db) : StoreInv db := by
  induction h with
  | refl => exact storeInv_init
  | tail _ hstep ih => exact storeInv_step ih hstep

/-- The exact value of a successful `CastVote`: the allocated vote and
the post state with the vote inserted and the flag set. -/
theorem castVote_success_eq (db : Database) (uid cid now : Nat) (u : User) (c : Candidate)
    (hu : lookupUser db uid = some u) (hv : u.hasVoted = false)
    (hc : lookupCandidate db cid = some c) :
    CastVote db uid cid now =
      (.ok { id := db.voteIDSeq + 1, userID := uid, candidateID := cid, createdAt := now },
       { db with
          voteIDSeq := db.voteIDSeq + 1
          votes := insertByKey Vote.id db.votes
            { id := db.voteIDSeq + 1, userID := uid, candidateID := cid, createdAt := now }
          users := db.users.map
            (fun w => if w.id == uid then { w with hasVoted := true } else w) }) := by
  unfold CastVote
  rw [hu]
  simp [hv, hc]

/-- After the flag-setting user update of a successful `CastVote`, the
voter resolves to the same record with the flag set. -/
theorem lookupUser_after_flag (db : Database) (uid : Nat) (u : User)
    (hu : lookupUser db uid = some u) :
    (db.users.map
      (fun w => if w.id == uid then { w with hasVoted := true } else w)).find?
        (fun w => w.id == uid) = some { u with hasVoted := true } := by
  have hp : (fun (w : User) => w.id == uid) ∘
      (fun w => if w.id == uid then { w with hasVoted := true } else w)
      = fun w => w.id == uid := by
    funext w
    by_cases hw : w.id = uid <;> simp [hw]
  have hu2 : db.users.find? (fun w => w.id == uid) = some u := hu
  rw [List.find?_map, hp, hu2]
  have huid : u.id = uid := by
    have := List.find?_some hu2
    simpa using this
  simp [huid]

/-! ### Claims -/

/-- C1: for every store state and every user id present in the user
table, `CastVote` first checks the user's has-voted flag and fails
with `alreadyVoted` performing no mutation when it is set; otherwise,
a candidate id absent from the candidate table fails with
`unknownCandidate` performing no mutation; only when both checks pass
does it allocate the next vote id, insert the Vote record, and set the
user's has-voted flag to true, returning that Vote.  (A user id absent
from the table is the subject of C9.) -/
theorem castVote_check_then_act (db : Database) (uid cid now : Nat) (u : User)
    (hu : lookupUser db uid = some u) :
    (u.hasVoted = true → CastVote db uid cid now = (.error .alreadyVoted, db)) ∧
    (u.hasVoted = false → lookupCandidate db cid = none →
      CastVote db uid cid now = (.error .unknownCandidate, db)) ∧
    (u.hasVoted = false → ∀ c, lookupCandidate db cid = some c →
      CastVote db uid cid now =
        (.ok { id := db.voteIDSeq + 1, userID := uid, candidateID := cid, createdAt := now },
         { db with
            voteIDSeq := db.voteIDSeq + 1
            votes := insertByKey Vote.id db.votes
              { id := db.voteIDSeq + 1, userID := uid, candidateID := cid, createdAt := now }
            users := db.users.map
              (fun w => if w.id == uid then { w with hasVoted := true } else w) })) := by
  refine ⟨?_, ?_, ?_⟩
  · intro hv
    unfold CastVote
    rw [hu]
    simp [hv]
  · intro hv hc
    unfold CastVote
    rw [hu]
    simp [hv, hc]
  · intro hv c hc
    exact castVote_success_eq db uid cid now u c hu hv hc

/-- Witness for C1: in the store holding only the unvoted "alice", an
unknown candidate fails with `unknownCandidate` and no mutation. -/
theorem castVote_check_then_act_witness :
    alice1.hasVoted = false ∧ lookupCandidate db1 999 = none ∧
    CastVote db1 1 999 0 = (.error .unknownCandidate, db1) :=
  ⟨by decide, by decide,
   (castVote_check_then_act db1 1 999 0 alice1 (by decide)).2.1 (by decide) (by decide)⟩

/-- C3: in every state reachable by any sequence of the core
operations from the freshly initialised store, a user's has-voted flag
is true iff exactly one vote exists whose voter id is that user's
id. -/
theorem hasVoted_iff_unique_vote (db : Database) (h : Reachable db) :
    ∀ u ∈ db.users, (u.hasVoted = true ↔ voteCount db u.id = 1) := by
  intro u hu
  have hc := (reachable_storeInv h).voteCountFlag u hu
  constructor
  · intro hv
    rw [hv] at hc
    simpa using hc
  · intro hcount
    by_contra hv
    rw [Bool.not_eq_true] at hv
    rw [hv] at hc
    simp at hc
    omega

/-- Witness for C3 at the reachable store holding the unvoted
"alice". -/
theorem hasVoted_iff_unique_vote_witness :
    alice1.hasVoted = true ↔ voteCount db1 alice1.id = 1 :=
  hasVoted_iff_unique_vote db1
    (Relation.ReflTransGen.single
      (Step.createUser NewDatabase "alice" "alice@example.com" "pw123"))
    alice1 (by decide)

/-- C4: `CreateUser` fails with `duplicateUsername`, mutating nothing,
whenever a user with exactly this (case-sensitive) username already
exists; consequently in every reachable state no two users share a
username. -/
theorem createUser_duplicate_username (db : Database) :
    (∀ username email password,
      (∃ u ∈ db.users, u.username = username) →
      CreateUser db username email password = (.error .duplicateUsername, db)) ∧
    (Reachable db → db.users.Pairwise (fun a b => ¬ a.username = b.username)) := by
  constructor
  · rintro username email password ⟨u, hu, huname⟩
    have hdup : db.users.any (fun w => w.username == username) = true :=
      List.any_eq_true.mpr ⟨u, hu, by simp [huname]⟩
    simp [CreateUser, hdup]
  · intro hr
    exact (reachable_storeInv hr).usernamesDistinct

/-- Witness for C4: registering "alice" twice — the second call fails
with `duplicateUsername` mutating nothing, and exactly one user named
"alice" exists. -/
theorem createUser_duplicate_username_witness :
    CreateUser db1 "alice" "other@example.com" "otherpw" = (.error .duplicateUsername, db1) ∧
    db1.users.Pairwise (fun a b => ¬ a.username = b.username) ∧
    (db1.users.filter (fun u => u.username == "alice")).length = 1 :=
  ⟨(createUser_duplicate_username db1).1 "alice" "other@example.com" "otherpw"
      ⟨alice1, by decide, by decide⟩,
   (createUser_duplicate_username db1).2
     (Relation.ReflTransGen.single
       (Step.createUser NewDatabase "alice" "alice@example.com" "pw123")),
   by decide⟩

/-- C5: `AuthenticateUser` returns the same error kind,
`invalidCredentials`, both when the username matches no user and when
it matches a user whose password comparison fails; the two causes are
indistinguishable from the returned error. -/
theorem authenticate_uniform_error (db : Database) (username password : String) :
    ((∀ u ∈ db.users, ¬ u.username = username) →
      AuthenticateUser db username password = .error .invalidCredentials) ∧
    (∀ u, db.users.find? (fun w => w.username == username) = some u →
      bcryptCompare u.password password = false →
      AuthenticateUser db username password = .error .invalidCredentials) := by
  constructor
  · intro hnone
    have hfind : db.users.find? (fun w => w.username == username) = none := by
      refine List.find?_eq_none.mpr ?_
      intro x hx
      simpa using hnone x hx
    simp [AuthenticateUser, hfind]
  · intro u hfind hcmp
    simp [AuthenticateUser, hfind, hcmp]

/-- Witness for C5: in the store holding "alice", an unknown username
and a wrong password for "alice" both return `invalidCredentials`. -/
theorem authenticate_uniform_error_witness :
    AuthenticateUser db1 "bob" "pw123" = .error .invalidCredentials ∧
    AuthenticateUser db1 "alice" "wrong" = .error .invalidCredentials :=
  ⟨(authenticate_uniform_error db1 "bob" "pw123").1 (by decide),
   (authenticate_uniform_error db1 "alice" "wrong").2 alice1 (by decide) (by decide)⟩

/-- C6: `DeleteToken` succeeds for every token string, known or not;
after it, `ValidateToken` on that string fails with `invalidToken`;
revoking again is a no-op success, and revoking an unknown token
leaves the store unchanged. -/
theorem revokeToken_always_succeeds (db : Database) (t : String) :
    (DeleteToken db t).1 = .ok () ∧
    ValidateToken (DeleteToken db t).2 t = .error .invalidToken ∧
    DeleteToken (DeleteToken db t).2 t = (.ok (), (DeleteToken db t).2) ∧
    (lookupToken db t = none → (DeleteToken db t).2 = db) := by
  refine ⟨rfl, ?_, ?_, ?_⟩
  · have hnone : lookupToken (DeleteToken db t).2 t = none := by
      refine List.find?_eq_none.mpr ?_
      intro x hx
      have hmem : x ∈ db.tokens ∧ (!(x.token == t)) = true := List.mem_filter.mp hx
      simpa using hmem.2
    simp [ValidateToken, hnone]
  · have htok : (DeleteToken db t).2.tokens.filter (fun tk => !(tk.token == t))
        = (DeleteToken db t).2.tokens := by
      show (db.tokens.filter (fun tk => !(tk.token == t))).filter (fun tk => !(tk.token == t))
          = db.tokens.filter (fun tk => !(tk.token == t))
      rw [List.filter_filter]
      simp
    calc DeleteToken (DeleteToken db t).2 t
        = (.ok (), { (DeleteToken db t).2 with
            tokens := (DeleteToken db t).2.tokens.filter (fun tk => !(tk.token == t)) }) := rfl
      _ = (.ok (), { (DeleteToken db t).2 with tokens := (DeleteToken db t).2.tokens }) := by
            rw [htok]
      _ = (.ok (), (DeleteToken db t).2) := rfl
  · intro hnone
    have hkeep : db.tokens.filter (fun tk => !(tk.token == t)) = db.tokens := by
      refine List.filter_eq_self.mpr ?_
      intro x hx
      have := List.find?_eq_none.mp hnone x hx
      simpa using this
    calc (DeleteToken db t).2
        = { db with tokens := db.tokens.filter (fun tk => !(tk.token == t)) } := rfl
      _ = { db with tokens := db.tokens } := by rw [hkeep]
      _ = db := rfl

/-- Witness for C6: revoking a token string unknown to the store is a
no-op success. -/
theorem revokeToken_always_succeeds_witness :
    lookupToken db1 "sometoken" = none ∧ (DeleteToken db1 "sometoken").2 = db1 :=
  ⟨by decide, (revokeToken_always_succeeds db1 "sometoken").2.2.2 (by decide)⟩

/-- C9: for every state and every user id absent from the user table,
`CastVote` fails with the not-found error for any candidate id and
performs no mutation. -/
theorem castVote_unknown_user (db : Database) (uid cid now : Nat)
    (h : lookupUser db uid = none) :
    CastVote db uid cid now = (.error .notFound, db) := by
  unfold CastVote
  rw [h]

/-- Witness for C9: voting in the fresh store, where no user exists,
fails with the not-found error even for a seeded candidate id. -/
theorem castVote_unknown_user_witness :
    lookupUser NewDatabase 1 = none ∧
    CastVote NewDatabase 1 2 0 = (.error .notFound, NewDatabase) :=
  ⟨by decide, castVote_unknown_user NewDatabase 1 2 0 (by decide)⟩

/-- C10: the core `CreateUser` performs no non-emptiness validation:
whenever no existing user carries the username — in particular for
empty username, email or password — it succeeds and stores the fields
as given; the non-empty check lives only in the transport-layer
register handler (`registerRejects`). -/
theorem createUser_no_field_validation (db : Database) (username email password : String)
    (h : ∀ u ∈ db.users, ¬ u.username = username) :
    (CreateUser db username email password).1 =
      .ok { id := db.userIDSeq + 1, username := username, email := email,
            password := bcryptHash password, hasVoted := false } ∧
    registerRejects "" email password = true ∧
    registerRejects username "" password = true ∧
    registerRejects username email "" = true := by
  have hdup : db.users.any (fun u => u.username == username) = false := by
    simp only [List.any_eq_false, beq_iff_eq]
    exact h
  refine ⟨by simp [CreateUser, hdup], ?_, ?_, ?_⟩ <;> simp [registerRejects]

/-- Witness for C10: creating a user with all fields empty succeeds in
the fresh store, while the register handler would reject the
request. -/
theorem createUser_no_field_validation_witness :
    (CreateUser NewDatabase "" "" "").1 =
      .ok { id := 1, username := "", email := "", password := bcryptHash "",
            hasVoted := false } ∧
    registerRejects "" "" "" = true := by
  have h := createUser_no_field_validation NewDatabase "" "" "" (by decide)
  exact ⟨h.1, h.2.1⟩

/-- C7: across every sequence of core operations, user ids assigned by
successive successful `CreateUser` calls are strictly increasing and
never reused, and vote ids assigned by successive successful
`CastVote` calls are strictly increasing and never reused: in every
reachable state all stored ids are bounded by the id sequence, no
operation ever decreases either sequence, and a successful call
allocates the successor of the sequence — strictly above every id
ever assigned before. -/
theorem ids_strictly_increasing (db : Database) (h : Reachable db) :
    (∀ u ∈ db.users, u.id ≤ db.userIDSeq) ∧
    (∀ v ∈ db.votes, v.id ≤ db.voteIDSeq) ∧
    (∀ db2, Step db db2 → db.userIDSeq ≤ db2.userIDSeq ∧ db.voteIDSeq ≤ db2.voteIDSeq) ∧
    (∀ username email password user db2,
      CreateUser db username email password = (.ok user, db2) →
      user.id = db.userIDSeq + 1 ∧ db2.userIDSeq = db.userIDSeq + 1 ∧
      ∀ w ∈ db.users, w.id < user.id) ∧
    (∀ uid cid now vote db2,
      CastVote db uid cid now = (.ok vote, db2) →
      vote.id = db.voteIDSeq + 1 ∧ db2.voteIDSeq = db.voteIDSeq + 1 ∧
      ∀ v ∈ db.votes, v.id < vote.id) := by
  have hinv := reachable_storeInv h
  refine ⟨hinv.userIdLe, hinv.voteIdLe, ?_, ?_, ?_⟩
  · intro db2 hs
    cases hs with
    | authenticate username password => exact ⟨le_refl _, le_refl _⟩
    | resolveToken tokenStr => exact ⟨le_refl _, le_refl _⟩
    | listCandidates order => exact ⟨le_refl _, le_refl _⟩
    | tally order => exact ⟨le_refl _, le_refl _⟩
    | issueToken userID tokenStr now => exact ⟨le_refl _, le_refl _⟩
    | revokeToken tokenStr => exact ⟨le_refl _, le_refl _⟩
    | createUser username email password =>
        by_cases hdup : db.users.any (fun u => u.username == username) = true
        · have hsame : (CreateUser db username email password).2 = db := by
            simp [CreateUser, hdup]
          rw [hsame]
          exact ⟨le_refl _, le_refl _⟩
        · have hseq : (CreateUser db username email password).2.userIDSeq = db.userIDSeq + 1 ∧
              (CreateUser db username email password).2.voteIDSeq = db.voteIDSeq := by
            simp [CreateUser, hdup]
          rw [hseq.1, hseq.2]
          exact ⟨Nat.le_succ _, le_refl _⟩
    | castVote uid cid now =>
        cases hu : lookupUser db uid with
        | none =>
            have hsame : (CastVote db uid cid now).2 = db := by
              unfold CastVote
              rw [hu]
            rw [hsame]
            exact ⟨le_refl _, le_refl _⟩
        | some user =>
            by_cases hv : user.hasVoted = true
            · have hsame : (CastVote db uid cid now).2 = db := by
                unfold CastVote
                rw [hu]
                simp [hv]
              rw [hsame]
              exact ⟨le_refl _, le_refl _⟩
            · cases hc : lookupCandidate db cid with
              | none =>
                  have hsame : (CastVote db uid cid now).2 = db := by
                    unfold CastVote
                    rw [hu]
                    simp [hv, hc]
                  rw [hsame]
                  exact ⟨le_refl _, le_refl _⟩
              | some cand =>
                  have hseq : (CastVote db uid cid now).2.userIDSeq = db.userIDSeq ∧
                      (CastVote db uid cid now).2.voteIDSeq = db.voteIDSeq + 1 := by
                    rw [castVote_success_eq db uid cid now user cand hu
                      (Bool.not_eq_true _ ▸ hv) hc]
                    exact ⟨rfl, rfl⟩
                  rw [hseq.1, hseq.2]
                  exact ⟨le_refl _, Nat.le_succ _⟩
  · intro username email password user db2 heq
    by_cases hdup : db.users.any (fun u => u.username == username) = true
    · simp [CreateUser, hdup] at heq
    · simp only [CreateUser, hdup, Bool.false_eq_true, if_false, if_neg] at heq
      obtain ⟨h1, h2⟩ := Prod.mk.injEq .. ▸ heq
      obtain rfl := (Except.ok.injEq .. ▸ h1).symm
      refine ⟨rfl, ?_, ?_⟩
      · rw [← h2]
      · intro w hw
        have := hinv.userIdLe w hw
        show w.id < db.userIDSeq + 1
        omega
  · intro uid cid now vote db2 heq
    cases hu : lookupUser db uid with
    | none =>
        have hnf : CastVote db uid cid now = (.error .notFound, db) := by
          unfold CastVote
          rw [hu]
        rw [hnf] at heq
        simp at heq
    | some user =>
        by_cases hv : user.hasVoted = true
        · have : CastVote db uid cid now = (.error .alreadyVoted, db) := by
            unfold CastVote
            rw [hu]
            simp [hv]
          rw [this] at heq
          simp at heq
        · cases hc : lookupCandidate db cid with
          | none =>
              have : CastVote db uid cid now = (.error .unknownCandidate, db) := by
                unfold CastVote
                rw [hu]
                simp [hv, hc]
              rw [this] at heq
              simp at heq
          | some cand =>
              rw [castVote_success_eq db uid cid now user cand hu
                (Bool.not_eq_true _ ▸ hv) hc] at heq
              obtain ⟨h1, h2⟩ := Prod.mk.injEq .. ▸ heq
              obtain rfl := (Except.ok.injEq .. ▸ h1).symm
              refine ⟨rfl, ?_, ?_⟩
              · rw [← h2]
              · intro v hvv
                have := hinv.voteIdLe v hvv
                show v.id < db.voteIDSeq + 1
                omega

/-- Witness for C7: the first registration in the fresh store
allocates user id 1, the successor of the zero sequence, above every
existing id. -/
theorem ids_strictly_increasing_witness :
    alice1.id = NewDatabase.userIDSeq + 1 ∧ db1.userIDSeq = NewDatabase.userIDSeq + 1 ∧
    ∀ w ∈ NewDatabase.users, w.id < alice1.id :=
  (ids_strictly_increasing NewDatabase Relation.ReflTransGen.refl).2.2.2.1
    "alice" "alice@example.com" "pw123" alice1 db1 (by decide)

/-- C8 (refuting the stability the specification requires): the
claimed property — two `GetCandidates` calls on the same state return
the candidates in the same order — fails on the code.  `GetCandidates`
ranges over the Go `candidates` map without sorting, and Go map range
order is unspecified and randomised per range, so two calls in one
process run may legally produce different orders: on the seeded store
the range orders `[1, 2, 3]` and `[3, 2, 1]` are both admissible and
yield different candidate sequences. -/
theorem getCandidates_order_unstable :
    CandidateRange NewDatabase [1, 2, 3] ∧ CandidateRange NewDatabase [3, 2, 1] ∧
    GetCandidates NewDatabase [1, 2, 3] ≠ GetCandidates NewDatabase [3, 2, 1] := by
  decide

/-- C2 (counterexample to the claim as stated): with "alice"
registered and unvoted, the batch consisting of the single call
`castVote(alice, 999)` — candidate 999 unknown — has zero successful
calls, not exactly one, and the failing call reports
`unknownCandidate`, not `alreadyVoted`. -/
theorem concurrent_votes_counterexample :
    ((castVotes db1 1 [(999, 0)]).1.filter exceptOk).length = 0 ∧
    (castVotes db1 1 [(999, 0)]).1.map errOf = [some .unknownCandidate] := by
  decide

/-- C2 (amended): for every reachable state, every registered user
whose has-voted flag is false, and every nonempty serialized batch of
`castVote` calls for that user naming only candidates present in the
candidate table, exactly one call succeeds, every other call fails
with `alreadyVoted`, and afterwards the vote ledger contains exactly
one vote with that voter id. -/
theorem concurrent_votes_exactly_one (db : Database) (uid : Nat) (u : User)
    (calls : List (Nat × Nat)) (hr : Reachable db)
    (hu : lookupUser db uid = some u) (hv : u.hasVoted = false)
    (hc : ∀ p ∈ calls, (lookupCandidate db p.1).isSome = true)
    (hne : calls ≠ []) :
    ((castVotes db uid calls).1.filter exceptOk).length = 1 ∧
    (∀ r ∈ (castVotes db uid calls).1.tail, r = .error .alreadyVoted) ∧
    voteCount (castVotes db uid calls).2 uid = 1 := by
  have hinv := reachable_storeInv hr
  rcases calls with _ | ⟨c, rest⟩
  · exact absurd rfl hne
  obtain ⟨cand, hcand⟩ := Option.isSome_iff_exists.mp (hc c (List.mem_cons_self c rest))
  have hsucc := castVote_success_eq db uid c.1 c.2 u cand hu hv hcand
  have hflag : lookupUser (CastVote db uid c.1 c.2).2 uid
      = some { u with hasVoted := true } := by
    rw [hsucc]
    exact lookupUser_after_flag db uid u hu
  have hrest := castVotes_after_voted uid { u with hasVoted := true } rfl rest
    (CastVote db uid c.1 c.2).2 hflag
  have hall : castVotes db uid (c :: rest) =
      ((Except.ok { id := db.voteIDSeq + 1, userID := uid, candidateID := c.1,
                    createdAt := c.2 } : Except Err Vote) ::
        rest.map (fun _ => .error .alreadyVoted),
       (CastVote db uid c.1 c.2).2) := by
    show ((CastVote db uid c.1 c.2).1 :: (castVotes (CastVote db uid c.1 c.2).2 uid rest).1,
          (castVotes (CastVote db uid c.1 c.2).2 uid rest).2) = _
    rw [hrest, hsucc]
  have hnil : (rest.map
      (fun _ => (Except.error Err.alreadyVoted : Except Err Vote))).filter exceptOk = [] := by
    refine List.filter_eq_nil_iff.mpr ?_
    intro r hrr
    rcases List.mem_map.mp hrr with ⟨_, _, rfl⟩
    simp [exceptOk]
  refine ⟨?_, ?_, ?_⟩
  · rw [hall]
    simp [List.filter_cons, exceptOk, hnil]
  · rw [hall]
    intro r hrr
    rcases List.mem_map.mp hrr with ⟨_, _, rfl⟩
    rfl
  · rw [hall, hsucc]
    have hfreshVote : ∀ y ∈ db.votes, ¬ Vote.id y = Vote.id
        { id := db.voteIDSeq + 1, userID := uid, candidateID := c.1,
          createdAt := c.2 } := by
      intro y hy
      have := hinv.voteIdLe y hy
      simp only [Vote.id]
      omega
    have hins := insertByKey_fresh Vote.id db.votes _ hfreshVote
    show ((insertByKey Vote.id db.votes
        { id := db.voteIDSeq + 1, userID := uid, candidateID := c.1,
          createdAt := c.2 }).filter (fun w => w.userID == uid)).length = 1
    rw [hins, voteCount_votes_append]
    have humem : u ∈ db.users := List.mem_of_find?_eq_some hu
    have huid : u.id = uid := by
      have := List.find?_some hu
      simpa using this
    have h0 : (db.votes.filter (fun w => w.userID == uid)).length = 0 := by
      have := hinv.voteCountFlag u humem
      rw [huid] at this
      simpa [hv, voteCount] using this
    simp [voteCount, h0]

/-- Witness for the amended C2: with "alice" registered and unvoted,
the serialized batch of two votes for seeded candidates 2 and 3 has
exactly one success, the other call failing with `alreadyVoted`, and
leaves exactly one vote for alice in the ledger. -/
theorem concurrent_votes_exactly_one_witness :
    ((castVotes db1 1 [(2, 0), (3, 1)]).1.filter exceptOk).length = 1 ∧
    (∀ r ∈ (castVotes db1 1 [(2, 0), (3, 1)]).1.tail, r = .error .alreadyVoted) ∧
    voteCount (castVotes db1 1 [(2, 0), (3, 1)]).2 1 = 1 :=
  concurrent_votes_exactly_one db1 1 alice1 [(2, 0), (3, 1)]
    (Relation.ReflTransGen.single
      (Step.createUser NewDatabase "alice" "alice@example.com" "pw123"))
    (by decide) (by decide) (by decide) (by decide)
